import Mathlib

/-!
A shallow embedding of the metadata-decoration toolkit: the decorator
factory merge engine (`DecoratorFactory` / `MethodDecoratorFactory`), the
`cloneDeep` utility, the `getTargetName` diagnostic formatter and the
`MetadataInspector` read side, together with a model of the external
reflection store described by the specification.

JavaScript objects are modelled by an explicit heap: a `JVal` is either a
primitive or a reference into a list of `JObj`s, each of which carries its
property table with the `enumerable` / `configurable` / `writable`
attributes that `Object.defineProperty`, `Object.assign` and
`Object.getOwnPropertyNames` observe.  Mutation is explicit state passing;
thrown errors are returned alongside the (already mutated) heap, matching
the fact that a JavaScript exception does not roll back prior writes.
-/

namespace MetadataToolkit

/-- A JavaScript value: primitives, a reference to a heap object, or a
reference to a decoration target (a class constructor or prototype). -/
inductive JVal where
  | undef
  | jnull
  | bool (b : Bool)
  | num (n : Int)
  | str (s : String)
  | ref (r : Nat)
  | tgt (t : Nat)
deriving DecidableEq, Repr

/-- One own property of an object: its value and the standard
property-descriptor attributes. -/
structure JProp where
  value : JVal
  enumerable : Bool
  configurable : Bool
  writable : Bool
deriving DecidableEq, Repr

/-- The kind of a heap object: a plain object, an array (element list kept
apart from named properties), or a `Date` wrapping an instant. -/
inductive JKind where
  | plain
  | array (items : List JVal)
  | date (time : Int)
deriving DecidableEq, Repr

/-- A heap object: its kind plus its table of named own properties, in
property-creation order (what `Object.getOwnPropertyNames` reports for
string keys). -/
structure JObj where
  kind : JKind
  props : List (String × JProp)
deriving DecidableEq, Repr

/-- The heap: object `r` lives at position `r`. -/
abbrev Heap := List JObj

def heapGet : Heap → Nat → Option JObj
  | [], _ => none
  | o :: _, 0 => some o
  | _ :: h, n + 1 => heapGet h n

def heapSet : Heap → Nat → JObj → Heap
  | [], _, _ => []
  | _ :: h, 0, o => o :: h
  | x :: h, n + 1, o => x :: heapSet h n o

/-- Allocate a fresh object, returning the new heap and its reference. -/
def heapAlloc (h : Heap) (o : JObj) : Heap × Nat :=
  (h ++ [o], h.length)

/-- Loose equality with `null` (`v == null` in JavaScript): true exactly for
`null` and `undefined`. -/
def JVal.isNullish : JVal → Bool
  | .undef => true
  | .jnull => true
  | _ => false

/-- `typeof v === 'object'`: true for `null`, object references and target
(class / prototype) references. -/
def JVal.typeofObject : JVal → Bool
  | .jnull => true
  | .ref _ => true
  | .tgt _ => true
  | _ => false

/-- JavaScript falsiness, used by `if (!meta)`. -/
def JVal.isFalsy : JVal → Bool
  | .undef => true
  | .jnull => true
  | .bool b => !b
  | .num n => n == 0
  | .str s => s == ""
  | _ => false

/-- `Array.isArray(v)`. -/
def isArrayRef (h : Heap) : JVal → Bool
  | .ref r =>
    match heapGet h r with
    | some o =>
      match o.kind with
      | .array _ => true
      | _ => false
    | none => false
  | _ => false

/-- First own property with the given name (`ps.find?` by key). -/
def propsLookup : List (String × JProp) → String → Option JProp
  | [], _ => none
  | q :: ps, k => if q.1 == k then some q.2 else propsLookup ps k

/-- Property assignment (`o[k] = v`) on a property table: an existing
writable property keeps its slot and attributes and changes value; an
existing non-writable property is left untouched (never exercised by the
modelled code paths); a missing property is appended as
enumerable / configurable / writable. -/
def setPropInProps (ps : List (String × JProp)) (k : String) (v : JVal) : List (String × JProp) :=
  match propsLookup ps k with
  | some p =>
    if p.writable then
      ps.map (fun q => if q.1 == k then (q.1, { q.2 with value := v }) else q)
    else ps
  | none => ps ++ [(k, ⟨v, true, true, true⟩)]

/-- Property assignment `o[k] = v` on the heap. -/
def setProp (h : Heap) (r : Nat) (k : String) (v : JVal) : Heap :=
  match heapGet h r with
  | some o => heapSet h r { o with props := setPropInProps o.props k v }
  | none => h

/-- Property read `v[k]`: `undefined` when the property (or the object) is
absent, and for every non-reference value. -/
def getProp (h : Heap) (v : JVal) (k : String) : JVal :=
  match v with
  | .ref r =>
    match heapGet h r with
    | some o =>
      match propsLookup o.props k with
      | some p => p.value
      | none => JVal.undef
    | none => JVal.undef
  | _ => JVal.undef

/-- The errors thrown by the modelled code. -/
inductive JSError where
  | typeError
  | duplicateDecorationError (message : String)
  | notImplementedError (message : String)
deriving DecidableEq, Repr

/-- `Object.defineProperty(o, k, value with enumerable: false,
configurable: false)` as used by `DecoratorFactory.withTarget`.  Per the
language's validation rules, redefining an existing non-configurable
non-writable data property is allowed only when the new value is the same;
otherwise a `TypeError` is thrown (heap unchanged). -/
def definePropertyHidden (h : Heap) (r : Nat) (k : String) (v : JVal) :
    Heap × Except JSError Unit :=
  match heapGet h r with
  | none => (h, Except.ok ())
  | some o =>
    match propsLookup o.props k with
    | none =>
      (heapSet h r { o with props := o.props ++ [(k, ⟨v, false, false, false⟩)] },
        Except.ok ())
    | some p =>
      if p.configurable then
        (heapSet h r
          { o with
            props := o.props.map (fun q =>
              if q.1 == k then (q.1, ⟨v, false, false, false⟩) else q) },
          Except.ok ())
      else if p.value == v then (h, Except.ok ())
      else (h, Except.error JSError.typeError)

/-- The own enumerable properties of a property table, in order, as
key / value pairs (what `Object.assign` copies from a source). -/
def enumerableEntries (ps : List (String × JProp)) : List (String × JVal) :=
  ps.filterMap (fun q => if q.2.enumerable then some (q.1, q.2.value) else none)

/-- Repeated property assignment of a list of entries onto a table. -/
def assignProps (ps : List (String × JProp)) (entries : List (String × JVal)) :
    List (String × JProp) :=
  entries.foldl (fun acc kv => setPropInProps acc kv.1 kv.2) ps

/-- `Object.assign(target, source)` for heap objects `t` and `s`: every own
enumerable property of `s` is assigned onto `t`; the result (the mutated
`t`) is the caller's concern. -/
def objectAssign (h : Heap) (t : Nat) (s : Nat) : Heap :=
  match heapGet h s with
  | none => h
  | some so =>
    (enumerableEntries so.props).foldl (fun acc kv => setProp acc t kv.1 kv.2) h

/-- `Object.assign(target, source)` where the source is an arbitrary value:
a primitive source contributes no own enumerable properties, and target
(class / prototype) objects carry no own properties in this model. -/
def objectAssignVal (h : Heap) (t : Nat) (s : JVal) : Heap :=
  match s with
  | .ref r => objectAssign h t r
  | _ => h

/-- `cloneDeep` from `utils/clone-deep.ts`, with a fuel parameter standing
in for the (unbounded) recursion.  Faithful to the source: non-objects are
returned as-is, dates and arrays are rebuilt, and for a plain object the
copy is built property by property by `reduce` into a fresh object — which
the function then ignores, returning `source` itself. -/
def cloneDeep : Nat → Heap → JVal → Option (Heap × JVal)
  | 0, _, _ => none
  | fuel + 1, h, source =>
    match source with
    | .ref r =>
      match heapGet h r with
      | none => none
      | some o =>
        match o.kind with
        | .date t =>
          let (h1, r1) := heapAlloc h ⟨.date t, []⟩
          some (h1, .ref r1)
        | .array items =>
          match items.foldl
              (fun acc item =>
                match acc with
                | none => none
                | some (h1, cloned) =>
                  match cloneDeep fuel h1 item with
                  | none => none
                  | some (h2, c) => some (h2, cloned ++ [c]))
              (some (h, ([] : List JVal))) with
          | none => none
          | some (h1, items1) =>
            let (h2, r2) := heapAlloc h1 ⟨.array items1, []⟩
            some (h2, .ref r2)
        | .plain =>
          match o.props.foldl
              (fun acc kp =>
                match acc with
                | none => none
                | some (h1, ps) =>
                  match cloneDeep fuel h1 kp.2.value with
                  | none => none
                  | some (h2, c) => some (h2, setPropInProps ps kp.1 c))
              (some (h, ([] : List (String × JProp)))) with
          | none => none
          | some (h1, clonedProps) =>
            let (h2, _) := heapAlloc h1 ⟨.plain, clonedProps⟩
            some (h2, source)
    | .tgt _ =>
      let (h1, _) := heapAlloc h ⟨.plain, []⟩
      some (h1, source)
    | _ => some (h, source)

/-- Modelled from the spec: a decoration target — a class constructor
(static-member decoration) or a class's instance-prototype (instance-member
decoration).  The reflection store is not part of the sources, so a target
is represented by its identity `id`, the identities of its ancestors along
the prototype / inheritance chain (nearest first), and what
`getTargetName` needs: the class name and whether the target is the
constructor function itself. -/
structure Target where
  id : Nat
  ancestors : List Nat
  className : String
  isConstructorFn : Bool
deriving DecidableEq, Repr

/-- Modelled from the spec: the external reflection store's state, an
associative store keyed by (metadata key, target) holding a metadata
value. -/
abbrev MetadataStore := List (String × Nat × JVal)

namespace Reflection

/-- Modelled from the spec: `getOwn(key, target)` — metadata defined
directly on `target` for `key`, ignoring ancestors; `undefined` when
absent (what `Reflect.getOwnMetadata` returns). -/
def getOwnMetadata (st : MetadataStore) (key : String) (target : Target) : JVal :=
  match st.find? (fun e => e.1 == key && e.2.1 == target.id) with
  | some e => e.2.2
  | none => JVal.undef

/-- Modelled from the spec: the ancestor walk of `getEffective` — own value
of the first target in the chain that has one. -/
def getMetadataChain (st : MetadataStore) (key : String) : List Nat → JVal
  | [] => JVal.undef
  | t :: rest =>
    match st.find? (fun e => e.1 == key && e.2.1 == t) with
    | some e => e.2.2
    | none => getMetadataChain st key rest

/-- Modelled from the spec: `getEffective(key, target)` — own value if
present, else the nearest ancestor's value found by walking the target's
inheritance chain upward; `undefined` if none found anywhere. -/
def getMetadata (st : MetadataStore) (key : String) (target : Target) : JVal :=
  getMetadataChain st key (target.id :: target.ancestors)

/-- Modelled from the spec: `define(key, target, value)` — stores or
overwrites the own value for (key, target). -/
def defineMetadata (st : MetadataStore) (key : String) (value : JVal) (target : Target) :
    MetadataStore :=
  if (st.find? (fun e => e.1 == key && e.2.1 == target.id)).isSome then
    st.map (fun e => if e.1 == key && e.2.1 == target.id then (e.1, e.2.1, value) else e)
  else (key, target.id, value) :: st

end Reflection

/-- Whether the method descriptor / parameter index argument is absent, a
method descriptor, or a parameter index. -/
inductive DescOrIndex where
  | missing
  | descriptor
  | index (i : Int)
deriving DecidableEq, Repr

/-- `getTargetName` from the utils: formats a human-readable identifier for
a target / member / parameter-or-descriptor tuple. -/
def getTargetName (target : Target) (member : Option String)
    (descriptorOrIndex : DescOrIndex) : String :=
  let name :=
    if target.isConstructorFn then target.className
    else target.className ++ ".prototype"
  if member == none && descriptorOrIndex == DescOrIndex.missing then
    "class " ++ name
  else
    let memberName :=
      match member with
      | none => "constructor"
      | some "" => "constructor"
      | some m => m
    let memberAccessor := "." ++ memberName
    match descriptorOrIndex with
    | .index i => name ++ memberAccessor ++ "[" ++ toString i ++ "]"
    | .descriptor => name ++ memberAccessor ++ "()"
    | .missing => name ++ memberAccessor

/-- `DecoratorOptions`: `none` models an absent field. -/
structure DecoratorOptions where
  decoratorName : Option String := none
  allowInheritance : Option Bool := none
  cloneInputSpec : Option Bool := none
deriving DecidableEq, Repr

/-- The option spread in the constructor:
`{ allowInheritance: true, cloneInputSpec: true, ...options }`. -/
def mergeOptions (options : DecoratorOptions) : DecoratorOptions :=
  { decoratorName := options.decoratorName,
    allowInheritance := some (options.allowInheritance.getD true),
    cloneInputSpec := some (options.cloneInputSpec.getD true) }

/-- `DecoratorFactory.TARGET`, the hidden property name recording the
origin target of a stored spec. -/
def decoratorTargetKey : String := "__decoratorTarget"

/-- The per-instance state of a `DecoratorFactory` after its constructor
ran: `key`, `spec` (cloned when `cloneInputSpec`), the merged `options`,
and the derived `decoratorName`. -/
structure DecoratorFactory where
  key : String
  spec : JVal
  options : DecoratorOptions
  decoratorName : String
deriving DecidableEq, Repr

/-- `this.constructor.name.replace(/Factory$/, '')`.  Spelled out on the
character list so that it evaluates inside the kernel. -/
def replaceFactorySuffix (className : String) : String :=
  if "Factory".data.isSuffixOf className.data then
    String.mk (className.data.take (className.data.length - 7))
  else className

/-- The `DecoratorFactory` constructor: merge the options over the
defaults, derive the decorator name from the concrete class's name, and
deep-clone the input spec when `cloneInputSpec` is enabled. -/
def mkDecoratorFactory (fuel : Nat) (className : String) (h : Heap) (key : String)
    (spec : JVal) (options : DecoratorOptions) : Option (Heap × DecoratorFactory) :=
  let merged := mergeOptions options
  let name := merged.decoratorName.getD (replaceFactorySuffix className)
  if merged.cloneInputSpec.getD false then
    match cloneDeep fuel h spec with
    | none => none
    | some (h1, spec1) => some (h1, ⟨key, spec1, merged, name⟩)
  else some (h, ⟨key, spec, merged, name⟩)

namespace DecoratorFactory

/-- `allowInheritance()`: `!!this.options?.allowInheritance`. -/
def allowInheritance (f : DecoratorFactory) : Bool :=
  f.options.allowInheritance.getD false

/-- `inherit(inheritedMetadata)`: merge base metadata into the spec.
Mirrors the source's guard order; the final case is
`Object.assign(inheritedMetadata, this.spec)`, which mutates
`inheritedMetadata` in place and returns it. -/
def inherit (f : DecoratorFactory) (h : Heap) (inheritedMetadata : JVal) : Heap × JVal :=
  if !f.allowInheritance then (h, f.spec)
  else if inheritedMetadata.isNullish then (h, f.spec)
  else if f.spec.isNullish then (h, inheritedMetadata)
  else if !inheritedMetadata.typeofObject then (h, f.spec)
  else if isArrayRef h inheritedMetadata || isArrayRef h f.spec then (h, f.spec)
  else
    match inheritedMetadata with
    | .ref t => (objectAssignVal h t f.spec, inheritedMetadata)
    | _ => (h, inheritedMetadata)

/-- `withTarget(spec, target)`: when the spec is a non-null object, define
the hidden non-enumerable non-configurable `TARGET` property on it; the
spec itself is returned.  A thrown `TypeError` from the redefinition is
propagated with the heap as it stands. -/
def withTarget (h : Heap) (spec : JVal) (target : Target) :
    Heap × Except JSError JVal :=
  if spec.typeofObject && !spec.isNullish then
    match spec with
    | .ref r =>
      match definePropertyHidden h r decoratorTargetKey (.tgt target.id) with
      | (h1, .ok ()) => (h1, .ok spec)
      | (h1, .error e) => (h1, .error e)
    | _ => (h, .ok spec)
  else (h, .ok spec)

/-- `getTarget(spec)`: the hidden `TARGET` property of a non-null
object-valued spec, else `undefined`. -/
def getTarget (h : Heap) (spec : JVal) : JVal :=
  if spec.typeofObject && !spec.isNullish then getProp h spec decoratorTargetKey
  else JVal.undef

end DecoratorFactory

/-- The abstract `DecoratorFactory.mergeWithInherited`, which a concrete
specialization must override: throws `NotImplementedError`. -/
def baseMergeWithInherited (f : DecoratorFactory) (h : Heap) (_inheritedMetadata : JVal)
    (_target : Target) (_member : Option String) (_descriptorOrIndex : DescOrIndex) :
    Heap × Except JSError JVal :=
  (h, .error (.notImplementedError
    ("not implemented for " ++ f.decoratorName ++ ": mergeWithInherited()")))

/-- The abstract `DecoratorFactory.mergeWithOwn`: throws
`NotImplementedError`. -/
def baseMergeWithOwn (f : DecoratorFactory) (h : Heap) (_ownMetadata : JVal)
    (_target : Target) (_member : Option String) (_descriptorOrIndex : DescOrIndex) :
    Heap × Except JSError JVal :=
  (h, .error (.notImplementedError
    ("not implemented for " ++ f.decoratorName ++ ": mergeWithOwn()")))

namespace MethodDecoratorFactory

/-- `MethodDecoratorFactory.mergeWithInherited`: the map is indexed by
method name; the slot for the decorated method is replaced by the
inherited-merge of its current value, tagged with the current target.  The
default parameter `inheritedMetadata = ` empty object applies when the
argument is `undefined`. -/
def mergeWithInherited (f : DecoratorFactory) (h : Heap) (inheritedMetadata : JVal)
    (target : Target) (methodName : String) : Heap × Except JSError JVal :=
  let (h, m) :=
    if inheritedMetadata == JVal.undef then
      let (h1, r) := heapAlloc h ⟨.plain, []⟩
      (h1, JVal.ref r)
    else (h, inheritedMetadata)
  let slot := getProp h m methodName
  let (h, merged) := f.inherit h slot
  match DecoratorFactory.withTarget h merged target with
  | (h, .error e) => (h, .error e)
  | (h, .ok tagged) =>
    match m with
    | .ref r => (setProp h r methodName tagged, .ok m)
    | _ => (h, .ok m)

/-- `MethodDecoratorFactory.mergeWithOwn`: a slot whose current value is
tagged with the current target means a second direct application at the
identical site, rejected with `DuplicateDecorationError`; otherwise the
slot is set to the factory's spec tagged with the target. -/
def mergeWithOwn (f : DecoratorFactory) (h : Heap) (ownMetadata : JVal)
    (target : Target) (methodName : String) (methodDescriptor : DescOrIndex) :
    Heap × Except JSError JVal :=
  let (h, m) :=
    if ownMetadata == JVal.undef then
      let (h1, r) := heapAlloc h ⟨.plain, []⟩
      (h1, JVal.ref r)
    else (h, ownMetadata)
  if DecoratorFactory.getTarget h (getProp h m methodName) == JVal.tgt target.id then
    (h, .error (.duplicateDecorationError
      ("duplicate " ++ f.decoratorName ++ " on " ++
        getTargetName target (some methodName) methodDescriptor)))
  else
    match DecoratorFactory.withTarget h f.spec target with
    | (h, .error e) => (h, .error e)
    | (h, .ok tagged) =>
      match m with
      | .ref r => (setProp h r methodName tagged, .ok m)
      | _ => (h, .ok m)

/-- `DecoratorFactory.decorate` as composed with the
`MethodDecoratorFactory` overrides: load own metadata; if absent and
inheritance is allowed, load effective metadata, deep-clone it, and merge
with inherited; else merge with own; store the result back as own
metadata.  `none` models clone-fuel exhaustion; a thrown error is returned
with the heap as mutated so far and the store untouched. -/
def decorate (fuel : Nat) (f : DecoratorFactory) (h : Heap) (st : MetadataStore)
    (target : Target) (methodName : String) (methodDescriptor : DescOrIndex) :
    Option (Heap × MetadataStore × Except JSError Unit) :=
  let meta := Reflection.getOwnMetadata st f.key target
  if meta.isFalsy && f.allowInheritance then
    let meta1 := Reflection.getMetadata st f.key target
    match cloneDeep fuel h meta1 with
    | none => none
    | some (h, meta2) =>
      match mergeWithInherited f h meta2 target methodName with
      | (h, .error e) => some (h, st, .error e)
      | (h, .ok meta3) =>
        some (h, Reflection.defineMetadata st f.key meta3 target, .ok ())
  else
    match mergeWithOwn f h meta target methodName methodDescriptor with
    | (h, .error e) => some (h, st, .error e)
    | (h, .ok meta3) =>
      some (h, Reflection.defineMetadata st f.key meta3 target, .ok ())

end MethodDecoratorFactory

/-- `MethodDecoratorFactory.createDecorator(key, spec, options)`: construct
the factory (whose class name yields the decorator name
`MethodDecorator`); the marker it returns is modelled by calling
`MethodDecoratorFactory.decorate` on the constructed factory. -/
def createMethodDecorator (fuel : Nat) (h : Heap) (key : String) (spec : JVal)
    (options : DecoratorOptions) : Option (Heap × DecoratorFactory) :=
  mkDecoratorFactory fuel "MethodDecoratorFactory" h key spec options

/-- `InspectionOptions`. -/
structure InspectionOptions where
  ownMetadataOnly : Option Bool := none
deriving DecidableEq, Repr

namespace MetadataInspector

/-- `getAllMethodMetadata(key, target, options)`: own or effective map per
the `ownMetadataOnly` flag. -/
def getAllMethodMetadata (st : MetadataStore) (key : String) (target : Target)
    (options : Option InspectionOptions) : JVal :=
  if ((options.map (·.ownMetadataOnly)).join.getD false) then
    Reflection.getOwnMetadata st key target
  else Reflection.getMetadata st key target

/-- `getMethodMetadata(key, target, methodName, options)`: the member's
slot of the all-methods map, via optional chaining (`undefined` when the
map is absent); the method name defaults to the empty string. -/
def getMethodMetadata (h : Heap) (st : MetadataStore) (key : String) (target : Target)
    (methodName : Option String) (options : Option InspectionOptions) : JVal :=
  let m := getAllMethodMetadata st key target options
  if m.isNullish then JVal.undef
  else getProp h m (methodName.getD "")

/-- `getAllParameterMetadata(key, target, methodName, options)`: the
member's slot (an ordered per-parameter sequence) of the own or effective
map. -/
def getAllParameterMetadata (h : Heap) (st : MetadataStore) (key : String) (target : Target)
    (methodName : Option String) (options : Option InspectionOptions) : JVal :=
  let meta :=
    if ((options.map (·.ownMetadataOnly)).join.getD false) then
      Reflection.getOwnMetadata st key target
    else Reflection.getMetadata st key target
  if meta.isNullish then JVal.undef
  else getProp h meta (methodName.getD "")

/-- `getParameterMetadata(key, target, methodName, index, options)`: one
parameter slot of the per-parameter sequence. -/
def getParameterMetadata (h : Heap) (st : MetadataStore) (key : String) (target : Target)
    (methodName : String) (index : Nat) (options : Option InspectionOptions) : JVal :=
  let seq := getAllParameterMetadata h st key target (some methodName) options
  if seq.isNullish then JVal.undef
  else
    match seq with
    | .ref r =>
      match heapGet h r with
      | some o =>
        match o.kind with
        | .array items => (items.getD index JVal.undef)
        | _ => JVal.undef
      | _ => JVal.undef
    | _ => JVal.undef

end MetadataInspector

/-- The own enumerable properties of an object-valued spec, as a shallow
key / value snapshot; `none` for non-references.  Used by the theorems to
state what a stored metadata value looks like. -/
def enumSnapshot (h : Heap) (v : JVal) : Option (List (String × JVal)) :=
  match v with
  | .ref r => (heapGet h r).map (fun o => enumerableEntries o.props)
  | _ => none

/-- First-match lookup in a key / value entry list. -/
def entriesLookup : List (String × JVal) → String → Option JVal
  | [], _ => none
  | e :: es, k => if e.1 == k then some e.2 else entriesLookup es k

/-! ### Concrete decoration scenarios used by the claim theorems -/

/-- The instance prototype of a base class `Base`. -/
def c1BaseTarget : Target := ⟨0, [], "Base", false⟩

/-- The instance prototype of `Sub extends Base`. -/
def c1SubTarget : Target := ⟨1, [0], "Sub", false⟩

/-- Initial heap holding the two caller specs: object 0 carries
`role: "admin"`, object 1 carries `level: 5`. -/
def c1Heap : Heap :=
  [⟨.plain, [("role", ⟨.str "admin", true, true, true⟩)]⟩,
   ⟨.plain, [("level", ⟨.num 5, true, true, true⟩)]⟩]

/-- Construct a method-decorator factory for key `K` with the
`role: "admin"` spec and apply it to `Base.prototype.foo`. -/
def c1FirstDecoration : Option (Heap × MetadataStore × Except JSError Unit) :=
  match createMethodDecorator 99 c1Heap "K" (.ref 0) {} with
  | some (h, f) => MethodDecoratorFactory.decorate 99 f h [] c1BaseTarget "foo" .descriptor
  | none => none

/-- Construct a second factory for the same key `K` with the `level: 5`
spec and apply it to the subclass's override of `foo`. -/
def c1SecondDecoration : Option (Heap × MetadataStore × Except JSError Unit) :=
  match c1FirstDecoration with
  | some (h, st, .ok ()) =>
    match createMethodDecorator 99 h "K" (.ref 1) {} with
    | some (h1, f) => MethodDecoratorFactory.decorate 99 f h1 st c1SubTarget "foo" .descriptor
    | none => none
  | _ => none

/-- Base prototype for the inheritance-isolation scenario. -/
def c2BaseTarget : Target := ⟨0, [], "Base", false⟩

/-- Subclass prototype for the inheritance-isolation scenario. -/
def c2SubTarget : Target := ⟨1, [0], "Sub", false⟩

/-- Heap holding spec `s1` (object 0, `a: 1`) and spec `s2` (object 1,
`b: 2`). -/
def c2Heap : Heap :=
  [⟨.plain, [("a", ⟨.num 1, true, true, true⟩)]⟩,
   ⟨.plain, [("b", ⟨.num 2, true, true, true⟩)]⟩]

/-- Decorate `Base.prototype.m` with `s1`. -/
def c2FirstDecoration : Option (Heap × MetadataStore × Except JSError Unit) :=
  match createMethodDecorator 99 c2Heap "K" (.ref 0) {} with
  | some (h, f) => MethodDecoratorFactory.decorate 99 f h [] c2BaseTarget "m" .descriptor
  | none => none

/-- Then decorate `Sub.prototype.m` with `s2` (a fresh factory). -/
def c2SecondDecoration : Option (Heap × MetadataStore × Except JSError Unit) :=
  match c2FirstDecoration with
  | some (h, st, .ok ()) =>
    match createMethodDecorator 99 h "K" (.ref 1) {} with
    | some (h1, f) => MethodDecoratorFactory.decorate 99 f h1 st c2SubTarget "m" .descriptor
    | none => none
  | _ => none

/-- Base prototype for the duplicate-rejection scenario. -/
def c3BaseTarget : Target := ⟨0, [], "Base", false⟩

/-- Subclass prototype for the duplicate-rejection scenario. -/
def c3SubTarget : Target := ⟨1, [0], "Sub", false⟩

/-- Heap with the two object-valued specs of the two factories. -/
def c3Heap : Heap :=
  [⟨.plain, [("a", ⟨.num 1, true, true, true⟩)]⟩,
   ⟨.plain, [("b", ⟨.num 2, true, true, true⟩)]⟩]

/-- The first factory (spec `a: 1`). -/
def c3Factory1 : Option (Heap × DecoratorFactory) :=
  createMethodDecorator 99 c3Heap "K" (.ref 0) {}

/-- Apply the first factory's marker to `Base.prototype.m`. -/
def c3FirstApplication : Option (Heap × MetadataStore × Except JSError Unit) :=
  match c3Factory1 with
  | some (h, f) => MethodDecoratorFactory.decorate 99 f h [] c3BaseTarget "m" .descriptor
  | none => none

/-- Apply the SAME factory instance a second time to the same
`(Base.prototype, "m")` site. -/
def c3SameInstanceSecond : Option (Heap × MetadataStore × Except JSError Unit) :=
  match c3Factory1, c3FirstApplication with
  | some (_, f), some (h, st, .ok ()) =>
    MethodDecoratorFactory.decorate 99 f h st c3BaseTarget "m" .descriptor
  | _, _ => none

/-- Apply a DIFFERENT factory of the same kind (spec `b: 2`) to the
subclass's `m` — the inheritance path. -/
def c3InheritanceSecond : Option (Heap × MetadataStore × Except JSError Unit) :=
  match c3FirstApplication with
  | some (h, st, .ok ()) =>
    match createMethodDecorator 99 h "K" (.ref 1) {} with
    | some (h1, f) => MethodDecoratorFactory.decorate 99 f h1 st c3SubTarget "m" .descriptor
    | none => none
  | _ => none

/-- A one-object heap: the plain object `a: 1` at reference 0. -/
def c4Heap : Heap := [⟨.plain, [("a", ⟨.num 1, true, true, true⟩)]⟩]

/-- Witness heap for the scalar-merge example: object 0 is the inherited
`a: 1, b: 2`, object 1 is the new spec `b: 3, c: 4`. -/
def c5ExampleHeap : Heap :=
  [⟨.plain, [("a", ⟨.num 1, true, true, true⟩), ("b", ⟨.num 2, true, true, true⟩)]⟩,
   ⟨.plain, [("b", ⟨.num 3, true, true, true⟩), ("c", ⟨.num 4, true, true, true⟩)]⟩]

/-- A method-decorator factory whose spec is object 1 of
`c5ExampleHeap`, exactly as the constructor builds it from default
options (the buggy clone hands back the same reference). -/
def c5ExampleFactory : DecoratorFactory :=
  ⟨"K", .ref 1, ⟨none, some true, some true⟩, "MethodDecorator"⟩

/-- Heap for the array counterexample: object 0 is the inherited array
`[1, 2]`. -/
def c6Heap : Heap := [⟨.array [.num 1, .num 2], []⟩]

/-- A method-decorator factory constructed with spec `null` and default
options. -/
def c6Factory : DecoratorFactory :=
  ⟨"K", .jnull, ⟨none, some true, some true⟩, "MethodDecorator"⟩

/-- Witness heap for the amended array claim: object 0 is the inherited
array `[1, 2]`, object 1 the new spec array `[3]`. -/
def c6WitnessHeap : Heap :=
  [⟨.array [.num 1, .num 2], []⟩, ⟨.array [.num 3], []⟩]

/-- A method-decorator factory whose spec is the array `[3]`. -/
def c6WitnessFactory : DecoratorFactory :=
  ⟨"K", .ref 1, ⟨none, some true, some true⟩, "MethodDecorator"⟩

/-- Base prototype for the lookup scenario. -/
def c7BaseTarget : Target := ⟨0, [], "Base", false⟩

/-- Subclass prototype (inherits from `c7BaseTarget`). -/
def c7SubTarget : Target := ⟨1, [0], "Sub", false⟩

/-- Heap holding the spec `x: 1` decorating the base member. -/
def c7Heap : Heap := [⟨.plain, [("x", ⟨.num 1, true, true, true⟩)]⟩]

/-- Decorate only the base class member `m`. -/
def c7Run : Option (Heap × MetadataStore × Except JSError Unit) :=
  match createMethodDecorator 99 c7Heap "K" (.ref 0) {} with
  | some (h, f) => MethodDecoratorFactory.decorate 99 f h [] c7BaseTarget "m" .descriptor
  | none => none

/-- The heap after the factory construction of the lookup scenario: the
buggy clone has appended a discarded copy of the spec. -/
def c7MidHeap : Heap :=
  [⟨.plain, [("x", ⟨.num 1, true, true, true⟩)]⟩,
   ⟨.plain, [("x", ⟨.num 1, true, true, true⟩)]⟩]

/-- The heap after decorating `Base.prototype.m`: the spec now carries the
hidden origin tag, and object 2 is the stored method-metadata map. -/
def c7FinalHeap : Heap :=
  [⟨.plain, [("x", ⟨.num 1, true, true, true⟩),
             ("__decoratorTarget", ⟨.tgt 0, false, false, false⟩)]⟩,
   ⟨.plain, [("x", ⟨.num 1, true, true, true⟩)]⟩,
   ⟨.plain, [("m", ⟨.ref 0, true, true, true⟩)]⟩]

/-- The metadata store after decorating only the base member. -/
def c7FinalStore : MetadataStore := [("K", 0, .ref 2)]

/-- The decorated class of the input-spec-protection scenario. -/
def c8Target : Target := ⟨0, [], "A", false⟩

/-- Heap holding the caller's original spec object `a: 1` at
reference 0. -/
def c8Heap : Heap := [⟨.plain, [("a", ⟨.num 1, true, true, true⟩)]⟩]

/-- Factory construction from the caller's spec with default options. -/
def c8Construction : Option (Heap × DecoratorFactory) :=
  createMethodDecorator 99 c8Heap "K" (.ref 0) {}

/-- One application of the produced decorator. -/
def c8Application : Option (Heap × MetadataStore × Except JSError Unit) :=
  match c8Construction with
  | some (h, f) => MethodDecoratorFactory.decorate 99 f h [] c8Target "m" .descriptor
  | none => none

/-- The single decoration target of the primitive-spec scenario. -/
def c9Target : Target := ⟨0, [], "A", false⟩

/-- Class `A`'s prototype for the marker-reuse scenario. -/
def c10TargetA : Target := ⟨0, [], "A", false⟩

/-- Class `B`'s prototype, unrelated to `A` and carrying no metadata. -/
def c10TargetB : Target := ⟨1, [], "B", false⟩

/-- Heap holding the factory's single object-valued spec `a: 1`. -/
def c10Heap : Heap := [⟨.plain, [("a", ⟨.num 1, true, true, true⟩)]⟩]

/-- The single factory whose marker is reused. -/
def c10Factory : Option (Heap × DecoratorFactory) :=
  createMethodDecorator 99 c10Heap "K" (.ref 0) {}

/-- First application: to `A.prototype.m`. -/
def c10FirstApplication : Option (Heap × MetadataStore × Except JSError Unit) :=
  match c10Factory with
  | some (h, f) => MethodDecoratorFactory.decorate 99 f h [] c10TargetA "m" .descriptor
  | none => none

/-- Second application of the same marker: to the unrelated
`B.prototype.n`. -/
def c10SecondApplication : Option (Heap × MetadataStore × Except JSError Unit) :=
  match c10Factory, c10FirstApplication with
  | some (_, f), some (h, st, .ok ()) =>
    MethodDecoratorFactory.decorate 99 f h st c10TargetB "n" .descriptor
  | _, _ => none

/-! ### Helper lemmas about the heap and property tables -/

theorem heapGet_heapSet_self {h : Heap} {t : Nat} {o : JObj} (o' : JObj)
    (ht : heapGet h t = some o) : heapGet (heapSet h t o') t = some o' := by
  induction h generalizing t with
  | nil => simp [heapGet] at ht
  | cons x xs ih =>
    cases t with
    | zero => simp [heapGet, heapSet]
    | succ n => simpa [heapGet, heapSet] using ih (t := n) (by simpa [heapGet] using ht)

theorem heapSet_heapSet (h : Heap) (t : Nat) (o o' : JObj) :
    heapSet (heapSet h t o) t o' = heapSet h t o' := by
  induction h generalizing t with
  | nil => rfl
  | cons x xs ih =>
    cases t with
    | zero => rfl
    | succ n => simp [heapSet, ih]

theorem heapSet_self {h : Heap} {t : Nat} {o : JObj} (ht : heapGet h t = some o) :
    heapSet h t o = h := by
  induction h generalizing t with
  | nil => rfl
  | cons x xs ih =>
    cases t with
    | zero =>
      simp [heapGet] at ht
      simp [heapSet, ht]
    | succ n =>
      simp [heapGet] at ht
      simp [heapSet, ih ht]

theorem heapGet_append_length (h : Heap) (o : JObj) : heapGet (h ++ [o]) h.length = some o := by
  induction h with
  | nil => rfl
  | cons x xs ih => simpa [heapGet] using ih

theorem getProp_alloc_empty (h : Heap) (m : String) :
    getProp (h ++ [(⟨.plain, []⟩ : JObj)]) (JVal.ref h.length) m = JVal.undef := by
  simp [getProp, heapGet_append_length, propsLookup]

theorem propsLookup_map_update_ne (ps : List (String × JProp)) (k1 k : String) (v : JVal)
    (hne : (k1 == k) = false) :
    propsLookup (ps.map (fun q => if q.1 == k1 then (q.1, { q.2 with value := v }) else q)) k =
      propsLookup ps k := by
  induction ps with
  | nil => rfl
  | cons q ps ih =>
    obtain ⟨a, p⟩ := q
    by_cases h1 : a = k1
    · subst h1
      have h2 : (a == k) = false := hne
      simp only [List.map_cons]
      rw [if_pos (by simp)]
      simp [propsLookup, h2]
      simpa using ih
    · by_cases h2 : a = k
      · subst h2
        simp only [List.map_cons]
        rw [if_neg (by simpa using h1)]
        simp [propsLookup]
      · simp only [List.map_cons]
        rw [if_neg (by simpa using h1)]
        simp [propsLookup, h2]
        simpa using ih

theorem propsLookup_append_ne (ps : List (String × JProp)) (k1 k : String) (p : JProp)
    (hne : (k1 == k) = false) :
    propsLookup (ps ++ [(k1, p)]) k = propsLookup ps k := by
  induction ps with
  | nil => simp [propsLookup, hne]
  | cons q ps ih =>
    by_cases h1 : q.1 = k
    · simp [propsLookup, h1]
    · simp [propsLookup, h1, ih]

theorem propsLookup_setPropInProps_ne (ps : List (String × JProp)) (k1 k : String) (v : JVal)
    (hne : (k1 == k) = false) :
    propsLookup (setPropInProps ps k1 v) k = propsLookup ps k := by
  unfold setPropInProps
  cases hc : propsLookup ps k1 with
  | none => simpa using propsLookup_append_ne ps k1 k ⟨v, true, true, true⟩ hne
  | some p =>
    by_cases hw : p.writable
    · simpa [hw] using propsLookup_map_update_ne ps k1 k v hne
    · simp [hw]

theorem propsLookup_map_update_self (ps : List (String × JProp)) (k : String) (v : JVal)
    (p : JProp) (hc : propsLookup ps k = some p) :
    propsLookup (ps.map (fun q => if q.1 == k then (q.1, { q.2 with value := v }) else q)) k =
      some { p with value := v } := by
  induction ps with
  | nil => simp [propsLookup] at hc
  | cons q ps ih =>
    by_cases h1 : q.1 = k
    · simp [propsLookup, h1] at hc
      simp only [List.map_cons]
      rw [if_pos (by simpa using h1)]
      simp [propsLookup, h1, hc]
    · simp [propsLookup, h1] at hc
      simp only [List.map_cons]
      rw [if_neg (by simpa using h1)]
      simp [propsLookup, h1]
      simpa using ih hc

theorem propsLookup_append_self (ps : List (String × JProp)) (k : String) (p : JProp)
    (hc : propsLookup ps k = none) :
    propsLookup (ps ++ [(k, p)]) k = some p := by
  induction ps with
  | nil => simp [propsLookup]
  | cons q ps ih =>
    by_cases h1 : q.1 = k
    · simp [propsLookup, h1] at hc
    · simp [propsLookup, h1] at hc ⊢
      exact ih hc

theorem propsLookup_setPropInProps_self (ps : List (String × JProp)) (k : String) (v : JVal)
    (hw : ∀ p, propsLookup ps k = some p → p.writable = true) :
    (propsLookup (setPropInProps ps k v) k).map (fun p => p.value) = some v := by
  unfold setPropInProps
  cases hc : propsLookup ps k with
  | none => simp [propsLookup_append_self ps k _ hc]
  | some p =>
    have hpw := hw p hc
    simp only [hc]
    rw [if_pos hpw, propsLookup_map_update_self ps k v p hc]
    rfl

theorem assignProps_lookup_ne_all (entries : List (String × JVal)) (ps : List (String × JProp))
    (k : String) (hne : ∀ e ∈ entries, (e.1 == k) = false) :
    propsLookup (assignProps ps entries) k = propsLookup ps k := by
  induction entries generalizing ps with
  | nil => rfl
  | cons e rest ih =>
    have h1 : (e.1 == k) = false := hne e (List.mem_cons_self _ _)
    have h2 : ∀ e' ∈ rest, (e'.1 == k) = false := fun e' he' => hne e' (List.mem_cons_of_mem _ he')
    calc propsLookup (assignProps (setPropInProps ps e.1 e.2) rest) k
        = propsLookup (setPropInProps ps e.1 e.2) k := ih _ h2
      _ = propsLookup ps k := propsLookup_setPropInProps_ne ps e.1 k e.2 h1

theorem assignProps_lookup (entries : List (String × JVal)) (ps : List (String × JProp))
    (k : String) (hnd : (entries.map Prod.fst).Nodup)
    (hw : ∀ p, propsLookup ps k = some p → p.writable = true) :
    (propsLookup (assignProps ps entries) k).map (fun p => p.value) =
      (match entriesLookup entries k with
       | some v => some v
       | none => (propsLookup ps k).map (fun p => p.value)) := by
  induction entries generalizing ps with
  | nil => rfl
  | cons e rest ih =>
    obtain ⟨k1, v1⟩ := e
    rw [List.map_cons, List.nodup_cons] at hnd
    obtain ⟨hk1, hndrest⟩ := hnd
    by_cases hk : k1 = k
    · subst hk
      have hne : ∀ e' ∈ rest, (e'.1 == k1) = false := by
        intro e' he'
        have hmem : e'.1 ∈ rest.map Prod.fst := List.mem_map_of_mem _ he'
        have hnek : e'.1 ≠ k1 := fun hh => hk1 (hh ▸ hmem)
        simpa using hnek
      have hstep := assignProps_lookup_ne_all rest (setPropInProps ps k1 v1) k1 hne
      have hself := propsLookup_setPropInProps_self ps k1 v1 hw
      show (propsLookup (assignProps (setPropInProps ps k1 v1) rest) k1).map (fun p => p.value) = _
      rw [hstep, hself]
      simp [entriesLookup]
    · have hkb : (k1 == k) = false := by simpa using hk
      have hw' : ∀ p, propsLookup (setPropInProps ps k1 v1) k = some p → p.writable = true := by
        intro p hp
        rw [propsLookup_setPropInProps_ne ps k1 k v1 hkb] at hp
        exact hw p hp
      have hih := ih (setPropInProps ps k1 v1) hndrest hw'
      show (propsLookup (assignProps (setPropInProps ps k1 v1) rest) k).map (fun p => p.value) = _
      rw [hih, propsLookup_setPropInProps_ne ps k1 k v1 hkb]
      simp [entriesLookup, hkb]

theorem foldl_setProp_eq (entries : List (String × JVal)) (h : Heap) (t : Nat) (knd : JKind)
    (ip : List (String × JProp)) (ht : heapGet h t = some ⟨knd, ip⟩) :
    entries.foldl (fun acc kv => setProp acc t kv.1 kv.2) h =
      heapSet h t ⟨knd, assignProps ip entries⟩ := by
  induction entries generalizing h ip with
  | nil => exact (heapSet_self ht).symm
  | cons e rest ih =>
    have hstep : setProp h t e.1 e.2 = heapSet h t ⟨knd, setPropInProps ip e.1 e.2⟩ := by
      simp [setProp, ht]
    have hget : heapGet (heapSet h t ⟨knd, setPropInProps ip e.1 e.2⟩) t =
        some ⟨knd, setPropInProps ip e.1 e.2⟩ := heapGet_heapSet_self _ ht
    calc (e :: rest).foldl (fun acc kv => setProp acc t kv.1 kv.2) h
        = rest.foldl (fun acc kv => setProp acc t kv.1 kv.2) (setProp h t e.1 e.2) := rfl
      _ = rest.foldl (fun acc kv => setProp acc t kv.1 kv.2)
            (heapSet h t ⟨knd, setPropInProps ip e.1 e.2⟩) := by rw [hstep]
      _ = heapSet (heapSet h t ⟨knd, setPropInProps ip e.1 e.2⟩) t
            ⟨knd, assignProps (setPropInProps ip e.1 e.2) rest⟩ := ih _ _ hget
      _ = heapSet h t ⟨knd, assignProps ip (e :: rest)⟩ := heapSet_heapSet _ _ _ _

theorem mergeWithInherited_fresh (s : JVal) (h : Heap) (m : String) :
    MethodDecoratorFactory.mergeWithInherited
        ⟨"K", s, ⟨none, some true, some true⟩, "MethodDecorator"⟩ h JVal.undef c7BaseTarget m =
      (match DecoratorFactory.withTarget (h ++ [⟨.plain, []⟩]) s c7BaseTarget with
       | (hw, .error e) => (hw, .error e)
       | (hw, .ok tagged) => (setProp hw h.length m tagged, .ok (JVal.ref h.length))) := by
  unfold MethodDecoratorFactory.mergeWithInherited
  simp only [beq_self_eq_true, if_true, heapAlloc, getProp_alloc_empty,
    DecoratorFactory.inherit, DecoratorFactory.allowInheritance, JVal.isNullish,
    Option.getD, Bool.not_true, Bool.false_eq_true, if_false]

/-! ### Claim theorems -/

/-- C1: the claimed end-to-end behaviour does not hold on the code.  After
decorating `Base.prototype.foo` with `role: "admin"`, a reader does see
`role: "admin"`; but applying a second factory with the same key and
`level: 5` to the subclass's override throws a `TypeError` instead of
succeeding (the buggy deep clone returns the inherited map itself, so the
base's tagged spec object reaches the non-configurable origin-tag
redefinition), and it leaves the base class's stored metadata for `foo`
mutated to `role: "admin", level: 5` on the way. -/
theorem c1_end_to_end_method_decoration_throws :
    (c1FirstDecoration.map (fun r =>
      enumSnapshot r.1
        (MetadataInspector.getMethodMetadata r.1 r.2.1 "K" c1BaseTarget (some "foo") none))) =
      some (some [("role", JVal.str "admin")]) ∧
    (c1SecondDecoration.map (fun r => r.2.2)) = some (Except.error JSError.typeError) ∧
    (c1SecondDecoration.map (fun r =>
      enumSnapshot r.1
        (MetadataInspector.getMethodMetadata r.1 r.2.1 "K" c1BaseTarget (some "foo") none))) =
      some (some [("role", JVal.str "admin"), ("level", JVal.num 5)]) :=
  ⟨rfl, rfl, rfl⟩

/-- C2: inheritance isolation fails on the code.  Decorating the subclass
member after the base member throws a `TypeError`, and by that point the
base class's own stored metadata for the member has already been mutated
from `a: 1` to `a: 1, b: 2` — because `cloneDeep` returns its argument
for plain objects, `Object.assign` runs directly on the base's stored
spec. -/
theorem c2_subclass_decoration_mutates_base_metadata :
    (c2SecondDecoration.map (fun r => r.2.2)) = some (Except.error JSError.typeError) ∧
    (c2SecondDecoration.map (fun r =>
      enumSnapshot r.1 (getProp r.1 (Reflection.getOwnMetadata r.2.1 "K" c2BaseTarget) "m"))) =
      some (some [("a", JVal.num 1), ("b", JVal.num 2)]) ∧
    (some (some [("a", JVal.num 1), ("b", JVal.num 2)]) :
        Option (Option (List (String × JVal)))) ≠ some (some [("a", JVal.num 1)]) :=
  ⟨rfl, rfl, by decide⟩

/-- C3: applying the same decorator instance twice directly to the same
`(target, member)` site does raise `DuplicateDecorationError` with the
documented message, but the inheritance path — a different decorator
instance of the same kind applied to base then subclass for the same
member — raises a `TypeError` instead of not raising, because the buggy
deep clone lets the base's tagged spec reach the origin-tag
redefinition. -/
theorem c3_duplicate_rejection_inheritance_path_raises :
    (c3SameInstanceSecond.map (fun r => r.2.2)) =
      some (Except.error (JSError.duplicateDecorationError
        "duplicate MethodDecorator on Base.prototype.m()")) ∧
    (c3InheritanceSecond.map (fun r => r.2.2)) = some (Except.error JSError.typeError) :=
  ⟨rfl, rfl⟩

/-- C4: the deep-clone contract fails for plain objects: `cloneDeep` on
the object `a: 1` builds the property-by-property copy (visible as the
appended heap object) but then returns the source reference itself, so
`clone(s) !== s` is violated. -/
theorem c4_clone_returns_source_reference :
    cloneDeep 9 c4Heap (JVal.ref 0) =
      some (c4Heap ++ [⟨.plain, [("a", ⟨.num 1, true, true, true⟩)]⟩], JVal.ref 0) :=
  rfl

/-- C5: scalar merge precedence.  When the inherited value and the
factory's spec are both non-array plain objects and inheritance is
enabled, `inherit` returns the inherited object shallow-merged with the
spec's own enumerable properties, the spec's keys taking precedence, and
one level deep only: for every key, the merged value is the spec's own
enumerable value at that key when present, else the previously stored
value. -/
theorem c5_scalar_merge_precedence (f : DecoratorFactory) (h : Heap) (i s : Nat)
    (ip sp : List (String × JProp)) (k : String)
    (hA : f.allowInheritance = true)
    (hs : f.spec = JVal.ref s)
    (hso : heapGet h s = some ⟨.plain, sp⟩)
    (hio : heapGet h i = some ⟨.plain, ip⟩)
    (hnd : ((enumerableEntries sp).map Prod.fst).Nodup)
    (hw : ∀ p, propsLookup ip k = some p → p.writable = true) :
    (f.inherit h (JVal.ref i)).2 = JVal.ref i ∧
    getProp (f.inherit h (JVal.ref i)).1 (JVal.ref i) k =
      (match entriesLookup (enumerableEntries sp) k with
       | some v => v
       | none => getProp h (JVal.ref i) k) := by
  have hinh : f.inherit h (JVal.ref i) = (objectAssign h i s, JVal.ref i) := by
    simp [DecoratorFactory.inherit, hA, hs, JVal.isNullish, JVal.typeofObject,
      isArrayRef, hso, hio, objectAssignVal]
  have hassign : objectAssign h i s =
      heapSet h i ⟨.plain, assignProps ip (enumerableEntries sp)⟩ := by
    unfold objectAssign
    rw [hso]
    exact foldl_setProp_eq _ h i .plain ip hio
  refine ⟨by rw [hinh], ?_⟩
  rw [hinh, hassign]
  have hget := heapGet_heapSet_self (h := h) (t := i)
    (⟨.plain, assignProps ip (enumerableEntries sp)⟩) hio
  have hlook := assignProps_lookup (enumerableEntries sp) ip k hnd hw
  simp only [getProp, hget, hio]
  cases he : entriesLookup (enumerableEntries sp) k with
  | some v =>
    rw [he] at hlook
    simp at hlook
    obtain ⟨p, hp, hpv⟩ := hlook
    simp [hp, hpv]
  | none =>
    rw [he] at hlook
    simp at hlook
    cases hq : propsLookup ip k with
    | none =>
      rw [hq] at hlook
      simp at hlook
      simp [hlook]
    | some q =>
      rw [hq] at hlook
      simp at hlook
      obtain ⟨p, hp, hpv⟩ := hlook
      simp [hp, hpv]

/-- C5 witness: the spec example — inherited `a: 1, b: 2` merged with new
spec `b: 3, c: 4` yields `a: 1, b: 3, c: 4`. -/
theorem c5_scalar_merge_precedence_witness :
    c5ExampleFactory.allowInheritance = true ∧
    getProp (c5ExampleFactory.inherit c5ExampleHeap (JVal.ref 0)).1 (JVal.ref 0) "a" =
      JVal.num 1 ∧
    getProp (c5ExampleFactory.inherit c5ExampleHeap (JVal.ref 0)).1 (JVal.ref 0) "b" =
      JVal.num 3 ∧
    getProp (c5ExampleFactory.inherit c5ExampleHeap (JVal.ref 0)).1 (JVal.ref 0) "c" =
      JVal.num 4 := by
  refine ⟨rfl, ?_, ?_, ?_⟩
  · exact ((c5_scalar_merge_precedence c5ExampleFactory c5ExampleHeap 0 1 _ _ "a" rfl rfl rfl rfl
      (by decide) (by intro p hp; cases hp; rfl)).2).trans (by rfl)
  · exact ((c5_scalar_merge_precedence c5ExampleFactory c5ExampleHeap 0 1 _ _ "b" rfl rfl rfl rfl
      (by decide) (by intro p hp; cases hp; rfl)).2).trans (by rfl)
  · exact ((c5_scalar_merge_precedence c5ExampleFactory c5ExampleHeap 0 1 _ _ "c" rfl rfl rfl rfl
      (by decide) (by intro p hp; cases hp)).2).trans (by rfl)

/-- C6 counterexample: the claim as stated fails when the new spec is
`null`.  The factory below is exactly what construction with spec `null`
and default options produces; the inherited value is the array `[1, 2]`,
yet `inherit` returns the inherited array, not the new spec. -/
theorem c6_array_replace_counterexample :
    mkDecoratorFactory 5 "MethodDecoratorFactory" c6Heap "K" JVal.jnull {} =
      some (c6Heap, c6Factory) ∧
    isArrayRef c6Heap (JVal.ref 0) = true ∧
    c6Factory.inherit c6Heap (JVal.ref 0) = (c6Heap, JVal.ref 0) ∧
    JVal.ref 0 ≠ c6Factory.spec :=
  ⟨rfl, rfl, rfl, by decide⟩

/-- C6 amended: whenever either the inherited value at a slot or the new
spec is an array AND the new spec is not `null` / `undefined`, the merge
result is the new spec unchanged — arrays are never combined
element-wise. -/
theorem c6_array_replace_amended (f : DecoratorFactory) (h : Heap) (inheritedMetadata : JVal)
    (harr : isArrayRef h inheritedMetadata = true ∨ isArrayRef h f.spec = true)
    (hspec : f.spec.isNullish = false) :
    f.inherit h inheritedMetadata = (h, f.spec) := by
  unfold DecoratorFactory.inherit
  by_cases hA : f.allowInheritance
  · by_cases hN : inheritedMetadata.isNullish
    · simp [hA, hN]
    · have hArr : (isArrayRef h inheritedMetadata || isArrayRef h f.spec) = true := by
        rcases harr with ha | ha <;> simp [ha]
      by_cases hT : inheritedMetadata.typeofObject
      · simp [hA, hN, hspec, hT, hArr]
      · simp [hA, hN, hspec, hT]
  · simp [hA]

/-- C6 amended witness: inherited `[1, 2]` merged with new spec `[3]`
yields `[3]`, not `[1, 2, 3]`. -/
theorem c6_array_replace_amended_witness :
    isArrayRef c6WitnessHeap (JVal.ref 0) = true ∧
    c6WitnessFactory.spec.isNullish = false ∧
    c6WitnessFactory.inherit c6WitnessHeap (JVal.ref 0) = (c6WitnessHeap, JVal.ref 1) ∧
    heapGet c6WitnessHeap 1 = some ⟨.array [.num 3], []⟩ :=
  ⟨rfl, rfl,
    c6_array_replace_amended c6WitnessFactory c6WitnessHeap (JVal.ref 0) (Or.inl rfl) rfl,
    rfl⟩

/-- C7: after decorating only the base class member (any spec `s`, any
member name `m`, any starting heap, provided construction and decoration
succeed), `getMethodMetadata` on the subclass target with
`ownMetadataOnly: true` returns `undefined` (the prototype chain is not
consulted), the same call without the flag returns exactly what the base
target's lookup returns (the value found by walking the chain), and the
read on a completely empty store returns `undefined` rather than
failing. -/
theorem c7_own_only_vs_effective_lookup (h0 h1 h2 : Heap) (s : JVal) (m : String)
    (f : DecoratorFactory) (st2 : MetadataStore)
    (hf : createMethodDecorator 99 h0 "K" s {} = some (h1, f))
    (hd : MethodDecoratorFactory.decorate 99 f h1 [] c7BaseTarget m .descriptor =
      some (h2, st2, Except.ok ())) :
    MetadataInspector.getMethodMetadata h2 st2 "K" c7SubTarget (some m) (some ⟨some true⟩) =
      JVal.undef ∧
    MetadataInspector.getMethodMetadata h2 st2 "K" c7SubTarget (some m) none =
      MetadataInspector.getMethodMetadata h2 st2 "K" c7BaseTarget (some m) none ∧
    MetadataInspector.getMethodMetadata [] [] "K" c7SubTarget (some m) none = JVal.undef := by
  unfold createMethodDecorator mkDecoratorFactory at hf
  cases hc : cloneDeep 99 h0 s with
  | none => rw [hc] at hf; simp [mergeOptions] at hf
  | some pr =>
    obtain ⟨h1', s'⟩ := pr
    rw [hc] at hf
    simp [mergeOptions] at hf
    obtain ⟨hh1, hff⟩ := hf
    subst hh1
    subst hff
    have hd3 : (match MethodDecoratorFactory.mergeWithInherited
          ⟨"K", s', ⟨none, some true, some true⟩, "MethodDecorator"⟩ h1' JVal.undef
          c7BaseTarget m with
        | (hx, Except.error e) => some (hx, ([] : MetadataStore), Except.error e)
        | (hx, Except.ok meta3) =>
          some (hx, Reflection.defineMetadata [] "K" meta3 c7BaseTarget, Except.ok ())) =
        some (h2, st2, Except.ok ()) := hd
    rw [mergeWithInherited_fresh] at hd3
    rcases hW : DecoratorFactory.withTarget (h1' ++ [⟨.plain, []⟩]) s' c7BaseTarget with ⟨hw, ew⟩
    rw [hW] at hd3
    cases ew with
    | error e => simp at hd3
    | ok tagged =>
      simp only [Option.some.injEq, Prod.mk.injEq] at hd3
      obtain ⟨hh2, hst2, -⟩ := hd3
      subst hh2
      subst hst2
      exact ⟨rfl, rfl, rfl⟩

/-- C7 witness: the concrete run — spec `x: 1`, member `m` — with the
hypotheses discharged by evaluation. -/
theorem c7_own_only_vs_effective_lookup_witness :
    MetadataInspector.getMethodMetadata c7FinalHeap c7FinalStore "K" c7SubTarget (some "m")
      (some ⟨some true⟩) = JVal.undef ∧
    MetadataInspector.getMethodMetadata c7FinalHeap c7FinalStore "K" c7SubTarget (some "m") none =
      MetadataInspector.getMethodMetadata c7FinalHeap c7FinalStore "K" c7BaseTarget
        (some "m") none ∧
    MetadataInspector.getMethodMetadata [] [] "K" c7SubTarget (some "m") none = JVal.undef :=
  c7_own_only_vs_effective_lookup c7Heap c7MidHeap c7FinalHeap (JVal.ref 0) "m"
    ⟨"K", JVal.ref 0, ⟨none, some true, some true⟩, "MethodDecorator"⟩ c7FinalStore rfl rfl

/-- C8: the factory options do default to `allowInheritance: true` and
`cloneInputSpec: true`, but the caller's spec object is NOT protected:
because the buggy clone returns the caller's object itself, the factory
stores that very reference, and the first application defines the hidden
`__decoratorTarget` property on the caller's original object. -/
theorem c8_input_spec_defaults_and_mutation :
    mergeOptions {} = ⟨none, some true, some true⟩ ∧
    (c8Construction.map (fun r => r.2.spec)) = some (JVal.ref 0) ∧
    ((heapGet c8Heap 0).map (fun o => (propsLookup o.props decoratorTargetKey).isSome)) =
      some false ∧
    (c8Application.map (fun r =>
      (heapGet r.1 0).map (fun o => (propsLookup o.props decoratorTargetKey).isSome))) =
      some (some true) :=
  ⟨rfl, rfl, rfl, rfl⟩

/-- C9: for every non-object spec (any primitive, or `null`), applying the
same decorator twice directly to the same `(target, member)` site does not
raise — both applications succeed and the slot simply holds the spec
again, because the hidden origin tag is only attached to (and read from)
object-valued specs. -/
theorem c9_primitive_spec_skips_duplicate_detection (p : JVal)
    (hp : p.typeofObject = false ∨ p = JVal.jnull) :
    ∃ f h1 st1 h2 st2,
      createMethodDecorator 99 [] "K" p {} = some ([], f) ∧
      MethodDecoratorFactory.decorate 99 f [] [] c9Target "m" .descriptor =
        some (h1, st1, Except.ok ()) ∧
      MethodDecoratorFactory.decorate 99 f h1 st1 c9Target "m" .descriptor =
        some (h2, st2, Except.ok ()) ∧
      getProp h2 (Reflection.getOwnMetadata st2 "K" c9Target) "m" = p := by
  rcases hp with hp | hp
  · cases p <;> simp [JVal.typeofObject] at hp <;>
      exact ⟨_, _, _, _, _, rfl, rfl, rfl, rfl⟩
  · subst hp
    exact ⟨_, _, _, _, _, rfl, rfl, rfl, rfl⟩

/-- C9 witness: the number `42` as spec. -/
theorem c9_primitive_spec_skips_duplicate_detection_witness :
    (JVal.num 42).typeofObject = false ∧
    (∃ f h1 st1 h2 st2,
      createMethodDecorator 99 [] "K" (JVal.num 42) {} = some ([], f) ∧
      MethodDecoratorFactory.decorate 99 f [] [] c9Target "m" .descriptor =
        some (h1, st1, Except.ok ()) ∧
      MethodDecoratorFactory.decorate 99 f h1 st1 c9Target "m" .descriptor =
        some (h2, st2, Except.ok ()) ∧
      getProp h2 (Reflection.getOwnMetadata st2 "K" c9Target) "m" = JVal.num 42) :=
  ⟨rfl, c9_primitive_spec_skips_duplicate_detection (JVal.num 42) (Or.inl rfl)⟩

/-- C10: a single factory's marker applied first to `A.prototype.m` (an
object-valued spec) and then to a member of the unrelated, metadata-free
class `B` fails on the second application with a `TypeError` (the
non-configurable origin tag on the factory's single spec object cannot be
redefined with the different target), not a `DuplicateDecorationError`. -/
theorem c10_marker_reuse_throws_type_error :
    (c10FirstApplication.map (fun r => r.2.2)) = some (Except.ok ()) ∧
    (c10SecondApplication.map (fun r => r.2.2)) = some (Except.error JSError.typeError) :=
  ⟨rfl, rfl⟩

end MetadataToolkit
